import Mathlib

/-!
# Verification of the `mvp` assembly-grammar layer

A shallow embedding of `src/parser/ast.rs` and `src/parser/grammar.rs`
(the current grammar of the repository; `parser/src/parser.rs` is the
superseded historical variant and is not modelled).

Conventions of the embedding:

* Input text (`nom::types::CompleteStr`) is a `List Char`.  A parser
  returns `Option (List Char × α)`: `some (rest, value)` for nom's
  `Ok((rest, value))` and `none` for `Err(..)` (the grammar only ever
  branches on success versus failure, never on the error payload).
* nom's `ws!` wrapper threads the separator `sp` (zero or more of the
  whitespace characters space, tab, CR, LF) before every sub-parser of
  the wrapped combinator tree and once after the whole match.  Each
  `ws!`-wrapped rule below is written with `sp` at exactly those spots;
  rules that are not `ws!`-wrapped (`opcode`, `address_pair`, `address`,
  `term`, `identifier`, the top-level alternation `top_expression`)
  contain no `sp` of their own.
* `u32::from_str` / `u32::from_str_radix(_, 16)` are modelled exactly on
  the digit strings the grammar feeds them: the numeric value of the
  digit run, failing iff that value exceeds `u32::MAX` (no wrapping).
* `unicode_xid::UnicodeXID::is_xid_start/is_xid_continue` are an external
  crate; they are modelled on the ASCII fragment of UAX#31 (`[A-Za-z]`
  for start, `[A-Za-z0-9_]` for continue), where the model agrees with
  the crate.  Every input appearing in the claims is ASCII.
* Recursion through parentheses and call arguments
  (`expression → term → top_expression → paren_expression/call →
  expression`) is broken by a fuel parameter; one unit of fuel is spent
  per nesting level, and the top-level entry points supply
  `input length + 1` fuel, which is enough because each nesting level
  consumes at least one character before recursing.
-/

namespace Mvp

/-! ## AST (`src/parser/ast.rs`) -/

/-- `VariableName<'a>(pub &'a str)`: an identifier string. -/
structure VariableName where
  name : List Char
deriving DecidableEq

/-- `Label<'a>`: a named or relative reference to a location. -/
inductive Label where
  | named : VariableName → Label
  | relative : Int → Label
deriving DecidableEq

/-- `NumberWidth`: byte width of a numeric literal. -/
inductive NumberWidth where
  | none
  | oneByte
  | twoBytes
deriving DecidableEq

/-- `Number { value: u32, width: NumberWidth }`.  The `u32` value is a
`Nat`; the parsers only construct values below `2^32`. -/
structure Number where
  value : Nat
  width : NumberWidth
deriving DecidableEq

/-- `BinaryOperator`: all nine variants of the source enum (the grammar
only produces the first four). -/
inductive BinaryOperator where
  | add
  | sub
  | mul
  | div
  | shl
  | shr
  | xor
  | and
  | or
deriving DecidableEq

/-- `Expression<'a>`.  `binary` carries the boxed pair
`Box<(Expression, Expression)>` as a product. -/
inductive Expression where
  | number : Number → Expression
  | var : Label → Expression
  | binary : BinaryOperator → Expression × Expression → Expression
  | call : VariableName → List Expression → Expression

/-- `OpcodeMode<'a>`: the addressing-mode shape of an operand. -/
inductive OpcodeMode where
  | implied
  | immediate
  | address
  | indirect
  | xIndirect
  | indirectY
  | stackIndirectY
  | longIndirect
  | longIndirectY
  | move : Expression → OpcodeMode
  | accumulator

/-- `Opcode<'a>`. -/
structure Opcode where
  name : List Char
  width : Option Nat
  mode : OpcodeMode
  value : Expression

/-- `Statement<'a>`.  The `If(Vec<Condition>)` variant inlines
`Condition { predicate, statements }` as a pair. -/
inductive Statement where
  | label : Label → Statement
  | opcode : Opcode → Statement
  | ifStmt : List (Option Expression × List Statement) → Statement
  | assignment : VariableName → Expression → Statement

/-! ## Parser primitives (nom combinators, specialised) -/

/-- One parse step: remaining input and value on success. -/
def Parser (α : Type) : Type := List Char → Option (List Char × α)

/-- The whitespace class of nom's `sp` separator (`" \t\r\n"`). -/
def isSp (c : Char) : Bool := c = ' ' || c = '\t' || c = '\r' || c = '\n'

/-- nom's `sp` separator: drop zero or more whitespace characters. -/
def sp (cs : List Char) : List Char := cs.dropWhile isSp

/-- `tag!`: expect a literal token. -/
def ptag (t : List Char) : Parser Unit := fun cs =>
  if t.isPrefixOf cs then some (cs.drop t.length, ()) else none

/-- `one_of!`: expect one character out of a set. -/
def poneOf (s : List Char) : Parser Char := fun cs =>
  match cs with
  | [] => none
  | c :: rest => if s.contains c then some (rest, c) else none

/-- `not!`: negative lookahead; consumes nothing. -/
def pnot {α : Type} (p : Parser α) : Parser Unit := fun cs =>
  match p cs with
  | some _ => none
  | none => some (cs, ())

/-- `opt!`: optional parse, backtracking on failure. -/
def popt {α : Type} (p : Parser α) : Parser (Option α) := fun cs =>
  match p cs with
  | some (r, a) => some (r, some a)
  | none => some (cs, none)

/-- `alt!` with two branches: ordered choice with full backtracking. -/
def palt {α : Type} (p q : Parser α) : Parser α := fun cs =>
  match p cs with
  | some x => some x
  | none => q cs

/-- `map!`. -/
def pmap {α β : Type} (f : α → β) (p : Parser α) : Parser β := fun cs =>
  match p cs with
  | some (r, a) => some (r, f a)
  | none => none

/-- `wrap_sep`: run the `sp` separator, then the parser (how `ws!`
prefixes a sub-parser). -/
def pws {α : Type} (p : Parser α) : Parser α := fun cs => p (sp cs)

/-- `pair!`. -/
def pPair {α β : Type} (p : Parser α) (q : Parser β) : Parser (α × β) := fun cs =>
  (p cs).bind fun r1 => (q r1.1).map fun r2 => (r2.1, (r1.2, r2.2))

/-- Iteration core of `fold_many0!`: repeat `p`, folding results; stop on
failure (backtracking the failed iteration) or lack of progress.  The
fuel is an upper bound on the iteration count; callers pass
`input length + 1`, which the progress guard makes sufficient. -/
def foldMany0Go {α β : Type} (p : Parser α) (f : β → α → β) :
    Nat → β → Parser β
  | 0, acc => fun cs => some (cs, acc)
  | n + 1, acc => fun cs =>
    match p cs with
    | none => some (cs, acc)
    | some (r, a) =>
      if r.length < cs.length then foldMany0Go p f n (f acc a) r
      else some (cs, acc)

/-- `fold_many0!(p, init, f)`. -/
def pfoldMany0 {α β : Type} (p : Parser α) (init : β) (f : β → α → β) :
    Parser β := fun cs =>
  foldMany0Go p f (cs.length + 1) init cs

/-- Iteration core of `separated_list!`: repeat separator-then-item,
backtracking a trailing separator whose item fails. -/
def separatedListGo {σ α : Type} (psep : Parser σ) (pitem : Parser α) :
    Nat → List α → Parser (List α)
  | 0, acc => fun cs => some (cs, acc.reverse)
  | n + 1, acc => fun cs =>
    match psep cs with
    | none => some (cs, acc.reverse)
    | some (r1, _) =>
      match pitem r1 with
      | none => some (cs, acc.reverse)
      | some (r2, a) =>
        if r2.length < cs.length then separatedListGo psep pitem n (a :: acc) r2
        else some (cs, acc.reverse)

/-- `separated_list!(psep, pitem)`: zero or more items; a missing first
item yields the empty list with nothing consumed. -/
def pseparatedList {σ α : Type} (psep : Parser σ) (pitem : Parser α) :
    Parser (List α) := fun cs =>
  match pitem cs with
  | none => some (cs, [])
  | some (r, a) => separatedListGo psep pitem (cs.length + 1) [a] r

/-! ## Lexical primitives (`grammar.rs`) -/

/-- ASCII fragment of `UnicodeXID::is_xid_start` (UAX#31 `XID_Start`). -/
def isXidStart (c : Char) : Bool :=
  ('A' ≤ c && c ≤ 'Z') || ('a' ≤ c && c ≤ 'z')

/-- ASCII fragment of `UnicodeXID::is_xid_continue` (UAX#31
`XID_Continue`). -/
def isXidContinue (c : Char) : Bool :=
  isXidStart c || ('0' ≤ c && c ≤ '9') || c = '_'

/-- `valid_identifier_first_character`. -/
def validIdentifierFirstCharacter (c : Char) : Bool :=
  c = '!' || c = '_' || isXidStart c

/-- `valid_later_character`. -/
def validLaterCharacter (c : Char) : Bool :=
  isXidContinue c || c = '_'

/-- `const OPERATORS: &str = "+-*/"`. -/
def OPERATORS : List Char := ['+', '-', '*', '/']

/-- `identifier`: one valid first character, then the maximal run of
valid later characters (the `char_indices` loop of the source). -/
def identifier : Parser (List Char) := fun cs =>
  match cs with
  | [] => none
  | c :: rest =>
    if validIdentifierFirstCharacter c then
      some (rest.dropWhile validLaterCharacter,
            c :: rest.takeWhile validLaterCharacter)
    else none

/-- Value of an ASCII decimal digit. -/
def decDigitVal (c : Char) : Nat := c.toNat - '0'.toNat

/-- Numeric value of a decimal digit string (`u32::from_str` on success). -/
def decVal (ds : List Char) : Nat :=
  ds.foldl (fun a c => a * 10 + decDigitVal c) 0

/-- Value of an ASCII hexadecimal digit. -/
def hexDigitVal (c : Char) : Nat :=
  if c.isDigit then c.toNat - '0'.toNat
  else if 'a' ≤ c && c ≤ 'f' then c.toNat - 'a'.toNat + 10
  else c.toNat - 'A'.toNat + 10

/-- Numeric value of a hexadecimal digit string
(`u32::from_str_radix(_, 16)` on success). -/
def hexVal (ds : List Char) : Nat :=
  ds.foldl (fun a c => a * 16 + hexDigitVal c) 0

/-- Character class of `nom::hex_digit`. -/
def isHexDigitChar (c : Char) : Bool :=
  c.isDigit || ('a' ≤ c && c ≤ 'f') || ('A' ≤ c && c ≤ 'F')

/-- `2^32`: `u32::from_str(_radix)` fails exactly at values ≥ this. -/
def u32Bound : Nat := 4294967296

/-- `number`: `map!(map_res!(ws!(nom::digit), u32::from_str), …)` — a
whitespace-wrapped maximal nonempty ASCII digit run; overflow beyond
`u32::MAX` is a failure of `map_res!`. -/
def number : Parser Expression := fun cs =>
  let cs1 := sp cs
  let ds := cs1.takeWhile Char.isDigit
  if ds.isEmpty then none
  else if decVal ds < u32Bound then
    some (sp (cs1.dropWhile Char.isDigit),
          Expression.number ⟨decVal ds, NumberWidth.none⟩)
  else none

/-- `hex_width_for_length`. -/
def hexWidthForLength (length : Nat) : NumberWidth :=
  match length with
  | 2 => NumberWidth.oneByte
  | 4 => NumberWidth.twoBytes
  | _ => NumberWidth.none

/-- `hex_number`: `ws!(do_parse!(tag!("$") >> map!(map_res!(nom::hex_digit,
u32::from_str_radix 16 ∘ pair-with-length), …)))`. -/
def hexNumber : Parser Expression := fun cs =>
  match ptag ['$'] (sp cs) with
  | none => none
  | some (cs1, _) =>
    let cs2 := sp cs1
    let ds := cs2.takeWhile isHexDigitChar
    if ds.isEmpty then none
    else if hexVal ds < u32Bound then
      some (sp (cs2.dropWhile isHexDigitChar),
            Expression.number ⟨hexVal ds, hexWidthForLength ds.length⟩)
    else none

/-! ## Expression grammar (`grammar.rs`)

The recursive reference back to `expression` (through `paren_expression`
and `call`) is abstracted as a parameter `pexp`; `expressionF` ties the
knot with fuel. -/

/-- `label`: `map!(identifier, |name| Label::Named(VariableName(name)))`. -/
def label : Parser Label :=
  pmap (fun name => Label.named ⟨name⟩) identifier

/-- `variable` (a Lean keyword, hence the name):
`map!(label, Expression::Variable)`. -/
def variableRef : Parser Expression := pmap Expression.var label

/-- The `alt!(tag!("+") | tag!("-"))` operator parser of `expression`. -/
def additiveOperator : Parser BinaryOperator :=
  palt (pmap (fun _ => BinaryOperator.add) (ptag ['+']))
       (pmap (fun _ => BinaryOperator.sub) (ptag ['-']))

/-- The `alt!(tag!("*") | tag!("/"))` operator parser of `term`. -/
def multiplicativeOperator : Parser BinaryOperator :=
  palt (pmap (fun _ => BinaryOperator.mul) (ptag ['*']))
       (pmap (fun _ => BinaryOperator.div) (ptag ['/']))

/-- `paren_expression`: `ws!(delimited!(tag!("("), expression, tag!(")")))`. -/
def parenExpression (pexp : Parser Expression) : Parser Expression := fun cs =>
  match ptag ['('] (sp cs) with
  | none => none
  | some (cs1, _) =>
    match pexp (sp cs1) with
    | none => none
    | some (cs2, e) =>
      match ptag [')'] (sp cs2) with
      | none => none
      | some (cs3, _) => some (sp cs3, e)

/-- `call`: `ws!(do_parse!(identifier >> delimited!(tag!("("),
separated_list!(tag!(","), expression), tag!(")")) >> Call))`. -/
def call (pexp : Parser Expression) : Parser Expression := fun cs =>
  match identifier (sp cs) with
  | none => none
  | some (cs1, name) =>
    match ptag ['('] (sp cs1) with
    | none => none
    | some (cs2, _) =>
      match pseparatedList (pws (ptag [','])) (pws pexp) cs2 with
      | none => none
      | some (cs3, parts) =>
        match ptag [')'] (sp cs3) with
        | none => none
        | some (cs4, _) => some (sp cs4, Expression.call ⟨name⟩ parts)

/-- `top_expression`: `alt!(paren_expression | number | hex_number | call
| variable)`. -/
def topExpression (pexp : Parser Expression) : Parser Expression :=
  palt (parenExpression pexp)
    (palt number
      (palt hexNumber
        (palt (call pexp) variableRef)))

/-- `term` (not `ws!`-wrapped): a `top_expression` followed by a
left-assoc `fold_many0!` over `*`/`/`. -/
def term (pexp : Parser Expression) : Parser Expression := fun cs =>
  match topExpression pexp cs with
  | none => none
  | some (cs1, init) =>
    pfoldMany0 (pPair multiplicativeOperator (topExpression pexp)) init
      (fun first x => Expression.binary x.1 (first, x.2)) cs1

/-- `expression` (`ws!`-wrapped): a `term` followed by a left-assoc
`fold_many0!` over `+`/`-`, with whitespace separators and a trailing
whitespace skip. -/
def expressionBody (pexp : Parser Expression) : Parser Expression := fun cs =>
  match term pexp (sp cs) with
  | none => none
  | some (cs1, init) =>
    match pfoldMany0 (pPair (pws additiveOperator) (pws (term pexp))) init
        (fun first x => Expression.binary x.1 (first, x.2)) cs1 with
    | none => none
    | some (cs2, res) => some (sp cs2, res)

/-- Fuelled knot of the `expression` recursion. -/
def expressionF : Nat → Parser Expression
  | 0 => fun _ => none
  | n + 1 => expressionBody (expressionF n)

/-- Top-level `grammar::expression` entry point. -/
def expression (cs : List Char) : Option (List Char × Expression) :=
  expressionF (cs.length + 1) cs

/-! ## Addressing-mode and statement grammar (`grammar.rs`) -/

/-- `immediate`: `ws!(do_parse!(tag!("#") >> expression >> Immediate))`. -/
def immediate (pexp : Parser Expression) : Parser (Expression × OpcodeMode) := fun cs =>
  match ptag ['#'] (sp cs) with
  | none => none
  | some (cs1, _) =>
    match pexp (sp cs1) with
    | none => none
    | some (cs2, e) => some (sp cs2, (e, OpcodeMode.immediate))

/-- `indirect`: `ws!(do_parse!(tag!("(") >> expression >> tag!(")") >>
not!(one_of!(OPERATORS)) >> Indirect))`. -/
def indirect (pexp : Parser Expression) : Parser (Expression × OpcodeMode) := fun cs =>
  match ptag ['('] (sp cs) with
  | none => none
  | some (cs1, _) =>
    match pexp (sp cs1) with
    | none => none
    | some (cs2, e) =>
      match ptag [')'] (sp cs2) with
      | none => none
      | some (cs3, _) =>
        match pnot (poneOf OPERATORS) (sp cs3) with
        | none => none
        | some (cs4, _) => some (sp cs4, (e, OpcodeMode.indirect))

/-- `x_indirect`: `ws!(do_parse!(tag!("(") >> expression >> tag!(",") >>
one_of!("xX") >> tag!(")") >> XIndirect))`. -/
def xIndirect (pexp : Parser Expression) : Parser (Expression × OpcodeMode) := fun cs =>
  match ptag ['('] (sp cs) with
  | none => none
  | some (cs1, _) =>
    match pexp (sp cs1) with
    | none => none
    | some (cs2, e) =>
      match ptag [','] (sp cs2) with
      | none => none
      | some (cs3, _) =>
        match poneOf ['x', 'X'] (sp cs3) with
        | none => none
        | some (cs4, _) =>
          match ptag [')'] (sp cs4) with
          | none => none
          | some (cs5, _) => some (sp cs5, (e, OpcodeMode.xIndirect))

/-- `indirect_y`: `ws!(do_parse!(tag!("(") >> expression >> tag!(")") >>
tag!(",") >> one_of!("yY") >> IndirectY))`. -/
def indirectY (pexp : Parser Expression) : Parser (Expression × OpcodeMode) := fun cs =>
  match ptag ['('] (sp cs) with
  | none => none
  | some (cs1, _) =>
    match pexp (sp cs1) with
    | none => none
    | some (cs2, e) =>
      match ptag [')'] (sp cs2) with
      | none => none
      | some (cs3, _) =>
        match ptag [','] (sp cs3) with
        | none => none
        | some (cs4, _) =>
          match poneOf ['y', 'Y'] (sp cs4) with
          | none => none
          | some (cs5, _) => some (sp cs5, (e, OpcodeMode.indirectY))

/-- `stack_indirect_y`: `ws!(do_parse!(tag!("(") >> expression >>
tag!(",") >> one_of!("sS") >> tag!(")") >> tag!(",") >> one_of!("yY") >>
StackIndirectY))`. -/
def stackIndirectY (pexp : Parser Expression) : Parser (Expression × OpcodeMode) := fun cs =>
  match ptag ['('] (sp cs) with
  | none => none
  | some (cs1, _) =>
    match pexp (sp cs1) with
    | none => none
    | some (cs2, e) =>
      match ptag [','] (sp cs2) with
      | none => none
      | some (cs3, _) =>
        match poneOf ['s', 'S'] (sp cs3) with
        | none => none
        | some (cs4, _) =>
          match ptag [')'] (sp cs4) with
          | none => none
          | some (cs5, _) =>
            match ptag [','] (sp cs5) with
            | none => none
            | some (cs6, _) =>
              match poneOf ['y', 'Y'] (sp cs6) with
              | none => none
              | some (cs7, _) => some (sp cs7, (e, OpcodeMode.stackIndirectY))

/-- `long_indirect`: `ws!(do_parse!(tag!("[") >> expression >> tag!("]")
>> LongIndirect))`. -/
def longIndirect (pexp : Parser Expression) : Parser (Expression × OpcodeMode) := fun cs =>
  match ptag ['['] (sp cs) with
  | none => none
  | some (cs1, _) =>
    match pexp (sp cs1) with
    | none => none
    | some (cs2, e) =>
      match ptag [']'] (sp cs2) with
      | none => none
      | some (cs3, _) => some (sp cs3, (e, OpcodeMode.longIndirect))

/-- `long_indirect_y`: `ws!(do_parse!(long_indirect >> tag!(",") >>
one_of!("yY") >> (res.0, LongIndirectY)))`. -/
def longIndirectY (pexp : Parser Expression) : Parser (Expression × OpcodeMode) := fun cs =>
  match longIndirect pexp (sp cs) with
  | none => none
  | some (cs1, res) =>
    match ptag [','] (sp cs1) with
    | none => none
    | some (cs2, _) =>
      match poneOf ['y', 'Y'] (sp cs2) with
      | none => none
      | some (cs3, _) => some (sp cs3, (res.1, OpcodeMode.longIndirectY))

/-- `address_pair` (not `ws!`-wrapped): `do_parse!(expression >> tag!(",")
>> expression >> (first, Move { second }))`. -/
def addressPair (pexp : Parser Expression) : Parser (Expression × OpcodeMode) := fun cs =>
  match pexp cs with
  | none => none
  | some (cs1, first) =>
    match ptag [','] cs1 with
    | none => none
    | some (cs2, _) =>
      match pexp cs2 with
      | none => none
      | some (cs3, second) => some (cs3, (first, OpcodeMode.move second))

/-- `address` (not `ws!`-wrapped): `do_parse!(expression >> (expression,
Address))`. -/
def address (pexp : Parser Expression) : Parser (Expression × OpcodeMode) :=
  pmap (fun e => (e, OpcodeMode.address)) pexp

/-- The `alt!` block of `opcode`, in source order: `indirect_y | indirect
| x_indirect | address_pair | address | immediate | long_indirect_y |
long_indirect | stack_indirect_y`. -/
def opcodeModeAlt (pexp : Parser Expression) : Parser (Expression × OpcodeMode) :=
  palt (indirectY pexp)
    (palt (indirect pexp)
      (palt (xIndirect pexp)
        (palt (addressPair pexp)
          (palt (address pexp)
            (palt (immediate pexp)
              (palt (longIndirectY pexp)
                (palt (longIndirect pexp) (stackIndirectY pexp))))))))

/-- The `ws!(pair!(tag!("."), one_of!("bBwWlL")))` inside `opcode`'s
`opt!`. -/
def widthSuffix : Parser (Unit × Char) := fun cs =>
  match ptag ['.'] (sp cs) with
  | none => none
  | some (cs1, _) =>
    match poneOf ['b', 'B', 'w', 'W', 'l', 'L'] (sp cs1) with
    | none => none
    | some (cs2, c) => some (sp cs2, ((), c))

/-- `opcode` (not `ws!`-wrapped): identifier, optional width suffix, then
the addressing-mode alternation. -/
def opcode (pexp : Parser Expression) : Parser Opcode := fun cs =>
  match identifier cs with
  | none => none
  | some (cs1, name) =>
    match popt widthSuffix cs1 with
    | none => none
    | some (cs2, mode) =>
      match opcodeModeAlt pexp cs2 with
      | none => none
      | some (cs3, result) =>
        some (cs3,
          { name := name,
            width := mode.map fun p =>
              match p.2 with
              | 'b' | 'B' => 1
              | 'w' | 'W' => 2
              | _ => 3,
            mode := result.2,
            value := result.1 })

/-- `statement`: `ws!(alt!(opcode => Statement::Opcode))`. -/
def statementBody (pexp : Parser Expression) : Parser Statement := fun cs =>
  match opcode pexp (sp cs) with
  | none => none
  | some (r, op) => some (sp r, Statement.opcode op)

/-- Top-level `grammar::statement` entry point. -/
def statement (cs : List Char) : Option (List Char × Statement) :=
  statementBody (expressionF (cs.length + 1)) cs

/-! ## Helper lemmas -/

theorem dropWhile_idem (p : Char → Bool) (l : List Char) :
    (l.dropWhile p).dropWhile p = l.dropWhile p := by
  induction l with
  | nil => rfl
  | cons c t ih =>
    by_cases h : p c <;> simp [List.dropWhile_cons, h, ih]

theorem sp_idem (cs : List Char) : sp (sp cs) = sp cs :=
  dropWhile_idem isSp cs

theorem dropWhile_append_all {p : Char → Bool} {w t : List Char}
    (h : ∀ c ∈ w, p c = true) :
    (w ++ t).dropWhile p = t.dropWhile p := by
  induction w with
  | nil => rfl
  | cons c w ih =>
    simp only [List.cons_append, List.dropWhile_cons]
    rw [h c (List.mem_cons_self c w)]
    exact ih fun d hd => h d (List.mem_cons_of_mem c hd)

theorem takeWhile_append_stop {p : Char → Bool} {ds rest : List Char}
    (hds : ∀ c ∈ ds, p c = true)
    (hrest : ∀ c, rest.head? = some c → p c = false) :
    (ds ++ rest).takeWhile p = ds := by
  induction ds with
  | nil =>
    cases rest with
    | nil => rfl
    | cons c t => simp [List.takeWhile_cons, hrest c rfl]
  | cons c ds ih =>
    simp only [List.cons_append, List.takeWhile_cons]
    rw [hds c (List.mem_cons_self c ds)]
    simp [ih fun d hd => hds d (List.mem_cons_of_mem c hd)]

theorem dropWhile_append_stop {p : Char → Bool} {ds rest : List Char}
    (hds : ∀ c ∈ ds, p c = true)
    (hrest : ∀ c, rest.head? = some c → p c = false) :
    (ds ++ rest).dropWhile p = rest := by
  induction ds with
  | nil =>
    cases rest with
    | nil => rfl
    | cons c t => simp [List.dropWhile_cons, hrest c rfl]
  | cons c ds ih =>
    simp only [List.cons_append, List.dropWhile_cons]
    rw [hds c (List.mem_cons_self c ds)]
    exact ih fun d hd => hds d (List.mem_cons_of_mem c hd)

theorem mem_takeWhile_pred {p : Char → Bool} {l : List Char} :
    ∀ c ∈ l.takeWhile p, p c = true := by
  induction l with
  | nil => intro c hc; cases hc
  | cons d t ih =>
    intro c hc
    by_cases hd : p d
    · rw [List.takeWhile_cons, if_pos hd] at hc
      rcases List.mem_cons.1 hc with rfl | hc
      · exact hd
      · exact ih c hc
    · rw [List.takeWhile_cons, if_neg hd] at hc
      cases hc

theorem head?_dropWhile_pred {p : Char → Bool} {l : List Char} {c : Char}
    (h : (l.dropWhile p).head? = some c) : p c = false := by
  induction l with
  | nil => cases h
  | cons d t ih =>
    by_cases hd : p d
    · rw [List.dropWhile_cons, if_pos hd] at h
      exact ih h
    · rw [List.dropWhile_cons, if_neg hd] at h
      cases h
      simpa using hd

theorem isSp_cases {c : Char} (h : isSp c = true) :
    c = ' ' ∨ c = '\t' ∨ c = '\r' ∨ c = '\n' := by
  have h' := h
  simp only [isSp, Bool.or_eq_true, decide_eq_true_eq] at h'
  tauto

theorem isSp_eq_false_of_isDigit {c : Char} (h : c.isDigit = true) :
    isSp c = false := by
  cases hs : isSp c
  · rfl
  · rcases isSp_cases hs with rfl | rfl | rfl | rfl <;> simp at h

theorem isSp_eq_false_of_isHexDigitChar {c : Char} (h : isHexDigitChar c = true) :
    isSp c = false := by
  cases hs : isSp c
  · rfl
  · rcases isSp_cases hs with rfl | rfl | rfl | rfl <;> simp [isHexDigitChar] at h

theorem palt_eq_some {α : Type} {p q : Parser α} {cs : List Char}
    {x : List Char × α} :
    palt p q cs = some x ↔ p cs = some x ∨ (p cs = none ∧ q cs = some x) := by
  unfold palt
  cases h : p cs <;> simp

/-! Shape of the value produced by each addressing-mode parser. -/

theorem indirectY_shape {pexp : Parser Expression} {cs r : List Char}
    {em : Expression × OpcodeMode} (h : indirectY pexp cs = some (r, em)) :
    em.2 = OpcodeMode.indirectY := by
  unfold indirectY at h
  repeat' split at h
  all_goals simp_all
  all_goals rw [← h.2]

theorem indirect_shape {pexp : Parser Expression} {cs r : List Char}
    {em : Expression × OpcodeMode} (h : indirect pexp cs = some (r, em)) :
    em.2 = OpcodeMode.indirect := by
  unfold indirect at h
  repeat' split at h
  all_goals simp_all
  all_goals rw [← h.2]

theorem xIndirect_shape {pexp : Parser Expression} {cs r : List Char}
    {em : Expression × OpcodeMode} (h : xIndirect pexp cs = some (r, em)) :
    em.2 = OpcodeMode.xIndirect := by
  unfold xIndirect at h
  repeat' split at h
  all_goals simp_all
  all_goals rw [← h.2]

theorem stackIndirectY_shape {pexp : Parser Expression} {cs r : List Char}
    {em : Expression × OpcodeMode} (h : stackIndirectY pexp cs = some (r, em)) :
    em.2 = OpcodeMode.stackIndirectY := by
  unfold stackIndirectY at h
  repeat' split at h
  all_goals simp_all
  all_goals rw [← h.2]

theorem longIndirect_shape {pexp : Parser Expression} {cs r : List Char}
    {em : Expression × OpcodeMode} (h : longIndirect pexp cs = some (r, em)) :
    em.2 = OpcodeMode.longIndirect := by
  unfold longIndirect at h
  repeat' split at h
  all_goals simp_all
  all_goals rw [← h.2]

theorem longIndirectY_shape {pexp : Parser Expression} {cs r : List Char}
    {em : Expression × OpcodeMode} (h : longIndirectY pexp cs = some (r, em)) :
    em.2 = OpcodeMode.longIndirectY := by
  unfold longIndirectY at h
  repeat' split at h
  all_goals simp_all
  all_goals rw [← h.2]

theorem immediate_shape {pexp : Parser Expression} {cs r : List Char}
    {em : Expression × OpcodeMode} (h : immediate pexp cs = some (r, em)) :
    em.2 = OpcodeMode.immediate := by
  unfold immediate at h
  repeat' split at h
  all_goals simp_all
  all_goals rw [← h.2]

theorem addressPair_shape {pexp : Parser Expression} {cs r : List Char}
    {em : Expression × OpcodeMode} (h : addressPair pexp cs = some (r, em)) :
    ∃ s, em.2 = OpcodeMode.move s := by
  unfold addressPair at h
  repeat' split at h
  all_goals simp_all
  all_goals exact ⟨_, by rw [← h.2]⟩

theorem address_elim {pexp : Parser Expression} {cs r : List Char}
    {em : Expression × OpcodeMode} (h : address pexp cs = some (r, em)) :
    pexp cs = some (r, em.1) ∧ em.2 = OpcodeMode.address := by
  unfold address pmap at h
  repeat' split at h
  all_goals simp_all
  all_goals exact ⟨by rw [← h.2], by rw [← h.2]⟩

/-- Any success of the `opcode` addressing-mode alternation has one of the
nine alternation shapes — in particular neither `Implied` nor
`Accumulator`. -/
theorem opcodeModeAlt_shape {pexp : Parser Expression} {cs r : List Char}
    {em : Expression × OpcodeMode} (h : opcodeModeAlt pexp cs = some (r, em)) :
    em.2 ≠ OpcodeMode.implied ∧ em.2 ≠ OpcodeMode.accumulator := by
  unfold opcodeModeAlt at h
  rcases palt_eq_some.1 h with h | ⟨-, h⟩
  · rw [indirectY_shape h]; exact ⟨nofun, nofun⟩
  rcases palt_eq_some.1 h with h | ⟨-, h⟩
  · rw [indirect_shape h]; exact ⟨nofun, nofun⟩
  rcases palt_eq_some.1 h with h | ⟨-, h⟩
  · rw [xIndirect_shape h]; exact ⟨nofun, nofun⟩
  rcases palt_eq_some.1 h with h | ⟨-, h⟩
  · obtain ⟨s, hs⟩ := addressPair_shape h; rw [hs]; exact ⟨nofun, nofun⟩
  rcases palt_eq_some.1 h with h | ⟨-, h⟩
  · rw [(address_elim h).2]; exact ⟨nofun, nofun⟩
  rcases palt_eq_some.1 h with h | ⟨-, h⟩
  · rw [immediate_shape h]; exact ⟨nofun, nofun⟩
  rcases palt_eq_some.1 h with h | ⟨-, h⟩
  · rw [longIndirectY_shape h]; exact ⟨nofun, nofun⟩
  rcases palt_eq_some.1 h with h | ⟨-, h⟩
  · rw [longIndirect_shape h]; exact ⟨nofun, nofun⟩
  · rw [stackIndirectY_shape h]; exact ⟨nofun, nofun⟩

/-- If the alternation succeeded with mode `Address`, then `address_pair`
(which is tried first) failed and the bare expression succeeded. -/
theorem opcodeModeAlt_address {pexp : Parser Expression} {cs r : List Char}
    {em : Expression × OpcodeMode} (h : opcodeModeAlt pexp cs = some (r, em))
    (ha : em.2 = OpcodeMode.address) :
    addressPair pexp cs = none ∧ pexp cs = some (r, em.1) := by
  unfold opcodeModeAlt at h
  rcases palt_eq_some.1 h with h | ⟨-, h⟩
  · rw [indirectY_shape h] at ha; cases ha
  rcases palt_eq_some.1 h with h | ⟨-, h⟩
  · rw [indirect_shape h] at ha; cases ha
  rcases palt_eq_some.1 h with h | ⟨-, h⟩
  · rw [xIndirect_shape h] at ha; cases ha
  rcases palt_eq_some.1 h with h | ⟨h4, h⟩
  · obtain ⟨s, hs⟩ := addressPair_shape h; rw [hs] at ha; cases ha
  rcases palt_eq_some.1 h with h | ⟨-, h⟩
  · exact ⟨h4, (address_elim h).1⟩
  rcases palt_eq_some.1 h with h | ⟨-, h⟩
  · rw [immediate_shape h] at ha; cases ha
  rcases palt_eq_some.1 h with h | ⟨-, h⟩
  · rw [longIndirectY_shape h] at ha; cases ha
  rcases palt_eq_some.1 h with h | ⟨-, h⟩
  · rw [longIndirect_shape h] at ha; cases ha
  · rw [stackIndirectY_shape h] at ha; cases ha

/-- Decomposition of a successful `opcode` parse: its mode and value come
from the addressing-mode alternation at some suffix of the input. -/
theorem opcode_elim {pexp : Parser Expression} {cs r : List Char} {op : Opcode}
    (h : opcode pexp cs = some (r, op)) :
    ∃ cs2 result, opcodeModeAlt pexp cs2 = some (r, result) ∧
      op.mode = result.2 ∧ op.value = result.1 := by
  unfold opcode at h
  repeat' split at h
  all_goals try exact Option.noConfusion h
  injection h with h'
  rw [Prod.mk.injEq] at h'
  obtain ⟨hr, hop⟩ := h'
  subst hr
  subst hop
  exact ⟨_, _, by assumption, rfl, rfl⟩

/-- Decomposition of a successful `statement` parse. -/
theorem statementBody_elim {pexp : Parser Expression} {cs r : List Char}
    {st : Statement} (h : statementBody pexp cs = some (r, st)) :
    ∃ r0 op, opcode pexp (sp cs) = some (r0, op) ∧ r = sp r0 ∧
      st = Statement.opcode op := by
  unfold statementBody at h
  split at h
  · exact Option.noConfusion h
  · rename_i r0 op heq
    injection h with h'
    exact ⟨r0, op, heq, (congrArg Prod.fst h').symm, (congrArg Prod.snd h').symm⟩

/-- The remainder of a successful `expression` parse carries no leading
whitespace (the trailing `sp` of `ws!` was applied to it). -/
theorem expressionF_sp {n : Nat} {cs r : List Char} {e : Expression}
    (h : expressionF n cs = some (r, e)) : sp r = r := by
  cases n with
  | zero => exact Option.noConfusion h
  | succ n =>
    unfold expressionF expressionBody at h
    repeat' split at h
    all_goals try exact Option.noConfusion h
    injection h with h'
    rw [Prod.mk.injEq] at h'
    rw [← h'.1]
    exact sp_idem _

/-- If `address_pair` failed although its first `expression` succeeded and
the comma was present, the second `expression` must have failed. -/
theorem addressPair_none_elim {pexp : Parser Expression} {cs r r2 : List Char}
    {e : Expression} {u : Unit} (hn : addressPair pexp cs = none)
    (h1 : pexp cs = some (r, e)) (h2 : ptag [','] r = some (r2, u)) :
    pexp r2 = none := by
  cases hp : pexp r2 with
  | none => rfl
  | some x =>
    obtain ⟨cs3, second⟩ := x
    unfold addressPair at hn
    simp only [h1, h2, hp] at hn
    exact Option.noConfusion hn

theorem ptag_cons_self (c : Char) (cs : List Char) :
    ptag [c] (c :: cs) = some (cs, ()) := by
  simp [ptag, List.isPrefixOf]

theorem poneOf_cons_mem {s : List Char} {c : Char} (cs : List Char)
    (h : s.contains c = true) : poneOf s (c :: cs) = some (cs, c) := by
  show (if s.contains c = true then some (cs, c) else none) = some (cs, c)
  rw [if_pos h]

/-! ## The claims -/

/-- Claim C1 — refuted by the code (status: code bug).  The claim, the
spec and the repository's own test `tests/expression.rs::label_math` all
require `"+ + ++"` to parse as
`Binary(Add, Variable(Relative(1)), Variable(Relative(2)))`, but the
`label` rule of `grammar.rs` only accepts named identifiers (there is no
relative-label alternative anywhere in the grammar), so every
alternative of `top_expression` rejects a leading `+` and the parse
fails. -/
theorem c1_relative_label_parse_fails :
    expression ("+ + ++".toList) = none := by rfl

/-- Claim C2: `"LDA ($19)+2"` parses as `Address` mode with value
`Binary(Add, (Number{0x19, OneByte}, Number{2, None}))`, and in general
the `indirect` pattern fails whenever the character following the closing
parenthesis (after whitespace) is one of the `OPERATORS` `+-*/`, thanks
to its trailing negative lookahead. -/
theorem c2_indirect_rejects_trailing_operator :
    statement ("LDA ($19)+2".toList) =
      some ([], Statement.opcode
        ⟨"LDA".toList, Option.none, OpcodeMode.address,
          Expression.binary BinaryOperator.add
            (Expression.number ⟨0x19, NumberWidth.oneByte⟩,
             Expression.number ⟨2, NumberWidth.none⟩)⟩) ∧
    ∀ (pexp : Parser Expression) (cs cs1 r1 r2 r3 : List Char)
      (e : Expression) (c : Char),
      sp cs = '(' :: cs1 →
      pexp (sp cs1) = some (r1, e) →
      sp r1 = ')' :: r2 →
      sp r2 = c :: r3 →
      OPERATORS.contains c = true →
      indirect pexp cs = none := by
  refine ⟨by rfl, ?_⟩
  intro pexp cs cs1 r1 r2 r3 e c h1 h2 h3 h4 h5
  unfold indirect pnot
  simp only [h1, ptag_cons_self, h2, h3, h4, poneOf_cons_mem _ h5]

/-- Claim C2 witness: the general lookahead statement applied to the
concrete operand `($19)+2`. -/
theorem c2_witness :
    indirect (expressionF 8) ("($19)+2".toList) = none :=
  c2_indirect_rejects_trailing_operator.2 (expressionF 8)
    ("($19)+2".toList) ("$19)+2".toList) (")+2".toList) ("+2".toList)
    ("2".toList) (Expression.number ⟨0x19, NumberWidth.oneByte⟩) '+'
    rfl rfl rfl rfl rfl

/-- Claim C3: `"LDA 19,x"` parses as `Move { second: Variable(Named("x")) }`
with value `Number{19, None}`, and in general a successful `statement`
parse can never report `Address` mode while a `,`-plus-parseable-second-
operand remains unconsumed: if the overall remainder starts with `','`
and the mode is `Address`, then the expression parser must fail on the
text after that comma (otherwise `address_pair`, tried before `address`,
would have succeeded). -/
theorem c3_move_tried_before_address :
    statement ("LDA 19,x".toList) =
      some ([], Statement.opcode
        ⟨"LDA".toList, Option.none,
          OpcodeMode.move (Expression.var (Label.named ⟨"x".toList⟩)),
          Expression.number ⟨19, NumberWidth.none⟩⟩) ∧
    ∀ (cs r r3 : List Char) (op : Opcode),
      statement cs = some (r, Statement.opcode op) →
      op.mode = OpcodeMode.address →
      r = ',' :: r3 →
      expressionF (cs.length + 1) r3 = none := by
  refine ⟨by rfl, ?_⟩
  intro cs r r3 op h hm hr
  unfold statement at h
  obtain ⟨r0, op', hop, hrsp, hst⟩ := statementBody_elim h
  injection hst with he
  subst he
  obtain ⟨cs2, result, halt, hmode, hval⟩ := opcode_elim hop
  have haddr : result.2 = OpcodeMode.address := by rw [← hmode]; exact hm
  obtain ⟨hapn, hpe⟩ := opcodeModeAlt_address halt haddr
  have hr0 : r = r0 := by rw [hrsp, expressionF_sp hpe]
  have hcomma : ptag [','] r0 = some (r3, ()) := by
    rw [← hr0, hr]; exact ptag_cons_self ',' r3
  exact addressPair_none_elim hapn hpe hcomma

/-- Claim C3 witness: `"LDA 19, "` parses as `Address` with remainder
`", "`, and the general statement then forces the expression parser to
fail on the text after the comma. -/
theorem c3_witness :
    expressionF ("LDA 19, ".toList.length + 1) [' '] = none :=
  c3_move_tried_before_address.2 ("LDA 19, ".toList) (", ".toList) [' ']
    ⟨"LDA".toList, Option.none, OpcodeMode.address,
      Expression.number ⟨19, NumberWidth.none⟩⟩
    rfl rfl rfl

/-- Claim C6: the expression grammar has the two left-associative
precedence tiers of `term` (`*`, `/`) under `expression` (`+`, `-`), and
parentheses override them: `"2 + 3 * 4 - 5 / 6 + 7"` parses (with empty
remainder) as `((2 + (3*4)) - (5/6)) + 7` and `"(2 + 3) * 4"` as
`(2+3)*4`. -/
theorem c6_precedence_tiers :
    expression ("2 + 3 * 4 - 5 / 6 + 7".toList) =
      some ([], Expression.binary BinaryOperator.add
        (Expression.binary BinaryOperator.sub
          (Expression.binary BinaryOperator.add
            (Expression.number ⟨2, NumberWidth.none⟩,
             Expression.binary BinaryOperator.mul
               (Expression.number ⟨3, NumberWidth.none⟩,
                Expression.number ⟨4, NumberWidth.none⟩)),
           Expression.binary BinaryOperator.div
             (Expression.number ⟨5, NumberWidth.none⟩,
              Expression.number ⟨6, NumberWidth.none⟩)),
         Expression.number ⟨7, NumberWidth.none⟩)) ∧
    expression ("(2 + 3) * 4".toList) =
      some ([], Expression.binary BinaryOperator.mul
        (Expression.binary BinaryOperator.add
          (Expression.number ⟨2, NumberWidth.none⟩,
           Expression.number ⟨3, NumberWidth.none⟩),
         Expression.number ⟨4, NumberWidth.none⟩)) :=
  ⟨by rfl, by rfl⟩

/-- Claim C7: `"f((1, 2))"` parses as the bare variable `f` with
`"((1, 2))"` left unconsumed (the call form's argument list fails on the
parenthesized tuple), and in general whenever the first four
`top_expression` alternatives all fail, the parser falls back to the
bare-variable alternative. -/
theorem c7_call_fallback_to_variable :
    expression ("f((1, 2))".toList) =
      some ("((1, 2))".toList, Expression.var (Label.named ⟨"f".toList⟩)) ∧
    ∀ (pexp : Parser Expression) (cs : List Char),
      parenExpression pexp cs = none → number cs = none →
      hexNumber cs = none → call pexp cs = none →
      topExpression pexp cs = variableRef cs := by
  refine ⟨by rfl, ?_⟩
  intro pexp cs h1 h2 h3 h4
  unfold topExpression palt
  simp only [h1, h2, h3, h4]

/-- Claim C7 witness: the fallback applied at the concrete input
`f((1, 2))`, whose call form fails. -/
theorem c7_witness :
    topExpression (expressionF 9) ("f((1, 2))".toList) =
      variableRef ("f((1, 2))".toList) :=
  c7_call_fallback_to_variable.2 (expressionF 9) ("f((1, 2))".toList)
    rfl rfl rfl rfl

/-- Claim C8: call syntax takes zero or more comma-separated full
expressions — `"f()"` is a valid empty-argument call, a trailing comma is
rejected by the `call` rule, and `"f(1, 8 + g(2, 3) + 9, 4) * 2"` parses
with empty remainder as a product whose left factor is a `Call` of `f`
with exactly three arguments, the middle one a nested binary expression
containing `g(2, 3)`. -/
theorem c8_call_argument_lists :
    expression ("f()".toList) = some ([], Expression.call ⟨"f".toList⟩ []) ∧
    expression ("f(1, 8 + g(2, 3) + 9, 4) * 2".toList) =
      some ([], Expression.binary BinaryOperator.mul
        (Expression.call ⟨"f".toList⟩
          [Expression.number ⟨1, NumberWidth.none⟩,
           Expression.binary BinaryOperator.add
             (Expression.binary BinaryOperator.add
               (Expression.number ⟨8, NumberWidth.none⟩,
                Expression.call ⟨"g".toList⟩
                  [Expression.number ⟨2, NumberWidth.none⟩,
                   Expression.number ⟨3, NumberWidth.none⟩]),
              Expression.number ⟨9, NumberWidth.none⟩),
           Expression.number ⟨4, NumberWidth.none⟩],
         Expression.number ⟨2, NumberWidth.none⟩)) ∧
    call (expressionF 8) ("f(1,2,)".toList) = none :=
  ⟨by rfl, by rfl, by rfl⟩

/-- Claim C10: every successful `statement` parse is a
`Statement::Opcode`, and the `opcode` rule never produces the `Implied`
or `Accumulator` modes; concretely, a bare mnemonic `"LDA"` fails to
parse, and `"LDA A"` parses as `Address` mode over the named variable
`A`. -/
theorem c10_opcode_mode_invariant :
    (∀ (pexp : Parser Expression) (cs r : List Char) (st : Statement),
        statementBody pexp cs = some (r, st) →
        ∃ op, st = Statement.opcode op ∧
          op.mode ≠ OpcodeMode.implied ∧ op.mode ≠ OpcodeMode.accumulator) ∧
    statement ("LDA".toList) = none ∧
    statement ("LDA A".toList) =
      some ([], Statement.opcode
        ⟨"LDA".toList, Option.none, OpcodeMode.address,
          Expression.var (Label.named ⟨"A".toList⟩)⟩) := by
  refine ⟨?_, by rfl, by rfl⟩
  intro pexp cs r st h
  obtain ⟨r0, op, hop, -, hst⟩ := statementBody_elim h
  obtain ⟨cs2, result, halt, hmode, -⟩ := opcode_elim hop
  obtain ⟨h1, h2⟩ := opcodeModeAlt_shape halt
  exact ⟨op, hst, by rw [hmode]; exact h1, by rw [hmode]; exact h2⟩

/-- Claim C10 witness: the invariant applied to the concrete parse of
`"LDA A"`. -/
theorem c10_witness :
    ∃ op, Statement.opcode
        (⟨"LDA".toList, Option.none, OpcodeMode.address,
          Expression.var (Label.named ⟨"A".toList⟩)⟩ : Opcode) =
        Statement.opcode op ∧
      op.mode ≠ OpcodeMode.implied ∧ op.mode ≠ OpcodeMode.accumulator :=
  c10_opcode_mode_invariant.1 (expressionF 6) ("LDA A".toList) []
    (Statement.opcode
      ⟨"LDA".toList, Option.none, OpcodeMode.address,
        Expression.var (Label.named ⟨"A".toList⟩)⟩) rfl

/-- Claim C9: a successful `identifier` parse decomposes the input into a
nonempty consumed prefix and the remainder, where the first consumed
character satisfies `valid_identifier_first_character`, all later
consumed characters satisfy `valid_later_character`, and the prefix is
maximal (the remainder's head, if any, is not a valid later character);
an input whose first character does not qualify is rejected; `"!"` alone
is a valid identifier and `"!!"` parses as `"!"` with `"!"` left over. -/
theorem c9_identifier_shape :
    (∀ (cs r nm : List Char), identifier cs = some (r, nm) →
      ∃ c rest, cs = c :: rest ∧
        validIdentifierFirstCharacter c = true ∧
        nm = c :: rest.takeWhile validLaterCharacter ∧
        r = rest.dropWhile validLaterCharacter ∧
        cs = nm ++ r ∧
        (∀ d ∈ nm.drop 1, validLaterCharacter d = true) ∧
        (∀ d, r.head? = some d → validLaterCharacter d = false)) ∧
    (∀ (c : Char) (rest : List Char),
      validIdentifierFirstCharacter c = false →
      identifier (c :: rest) = none) ∧
    identifier ("!".toList) = some ([], ['!']) ∧
    identifier ("!!".toList) = some (['!'], ['!']) ∧
    identifier ("4abc".toList) = none := by
  refine ⟨?_, ?_, by rfl, by rfl, by rfl⟩
  · intro cs r nm h
    cases cs with
    | nil => exact Option.noConfusion h
    | cons c rest =>
      replace h : (if validIdentifierFirstCharacter c = true then
          some (rest.dropWhile validLaterCharacter,
                c :: rest.takeWhile validLaterCharacter)
          else none) = some (r, nm) := h
      cases hv : validIdentifierFirstCharacter c with
      | false => rw [hv] at h; simp at h
      | true =>
        rw [hv, if_pos rfl] at h
        simp only [Option.some.injEq, Prod.mk.injEq] at h
        refine ⟨c, rest, rfl, hv, h.2.symm, h.1.symm, ?_, ?_, ?_⟩
        · rw [← h.2, ← h.1]
          simp [List.takeWhile_append_dropWhile]
        · intro d hd
          rw [← h.2] at hd
          exact mem_takeWhile_pred d (by simpa using hd)
        · intro d hd
          rw [← h.1] at hd
          exact head?_dropWhile_pred hd
  · intro c rest h
    simp [identifier, h]

/-- Claim C9 witness: the decomposition applied to the concrete parse of
`"abc+"`. -/
theorem c9_witness :
    ∃ c rest, "abc+".toList = c :: rest ∧
      validIdentifierFirstCharacter c = true ∧
      ['a', 'b', 'c'] = c :: rest.takeWhile validLaterCharacter ∧
      ['+'] = rest.dropWhile validLaterCharacter ∧
      "abc+".toList = ['a', 'b', 'c'] ++ ['+'] ∧
      (∀ d ∈ (['a', 'b', 'c'] : List Char).drop 1,
        validLaterCharacter d = true) ∧
      (∀ d, (['+'] : List Char).head? = some d →
        validLaterCharacter d = false) :=
  c9_identifier_shape.1 ("abc+".toList) ['+'] ['a', 'b', 'c'] rfl

theorem hexWidthForLength_oneByte_iff (l : Nat) :
    hexWidthForLength l = NumberWidth.oneByte ↔ l = 2 := by
  constructor
  · intro h
    unfold hexWidthForLength at h
    split at h
    all_goals first | rfl | cases h
  · rintro rfl; rfl

theorem hexWidthForLength_twoBytes_iff (l : Nat) :
    hexWidthForLength l = NumberWidth.twoBytes ↔ l = 4 := by
  constructor
  · intro h
    unfold hexWidthForLength at h
    split at h
    all_goals first | rfl | cases h
  · rintro rfl; rfl

/-- Evaluation of `number` on an input decomposed as leading whitespace,
a maximal nonempty digit run, and a remainder: the parse succeeds with
the run's exact value iff that value fits in a `u32`. -/
theorem number_run {w ds rest : List Char}
    (hw : ∀ c ∈ w, isSp c = true) (hne : ds ≠ [])
    (hds : ∀ c ∈ ds, c.isDigit = true)
    (hrest : ∀ c, rest.head? = some c → c.isDigit = false) :
    number (w ++ (ds ++ rest)) =
      (if decVal ds < u32Bound
       then some (sp rest, Expression.number ⟨decVal ds, NumberWidth.none⟩)
       else none) := by
  obtain ⟨d, ds', rfl⟩ := List.exists_cons_of_ne_nil hne
  have hd : d.isDigit = true := hds d (List.mem_cons_self d ds')
  have hdsp : isSp d = false := isSp_eq_false_of_isDigit hd
  have hsp : sp (w ++ (d :: ds' ++ rest)) = (d :: ds') ++ rest := by
    unfold sp
    rw [dropWhile_append_all hw]
    simp [List.dropWhile_cons, hdsp]
  have htake : ((d :: ds') ++ rest).takeWhile Char.isDigit = d :: ds' :=
    takeWhile_append_stop hds hrest
  have hdrop : ((d :: ds') ++ rest).dropWhile Char.isDigit = rest :=
    dropWhile_append_stop hds hrest
  unfold number
  rw [hsp]
  simp only [htake, hdrop, List.isEmpty_cons]
  rfl

/-- Evaluation of `hex_number` on an input decomposed as whitespace, the
`$` sigil, whitespace, a maximal nonempty hex-digit run, and a remainder:
the parse succeeds with the run's exact value and the width determined by
the run's length iff the value fits in a `u32`. -/
theorem hexNumber_run {w1 w2 ds rest : List Char}
    (hw1 : ∀ c ∈ w1, isSp c = true) (hw2 : ∀ c ∈ w2, isSp c = true)
    (hne : ds ≠ [])
    (hds : ∀ c ∈ ds, isHexDigitChar c = true)
    (hrest : ∀ c, rest.head? = some c → isHexDigitChar c = false) :
    hexNumber (w1 ++ '$' :: (w2 ++ (ds ++ rest))) =
      (if hexVal ds < u32Bound
       then some (sp rest,
         Expression.number ⟨hexVal ds, hexWidthForLength ds.length⟩)
       else none) := by
  obtain ⟨d, ds', rfl⟩ := List.exists_cons_of_ne_nil hne
  have hd : isHexDigitChar d = true := hds d (List.mem_cons_self d ds')
  have hdsp : isSp d = false := isSp_eq_false_of_isHexDigitChar hd
  have hsp1 : sp (w1 ++ '$' :: (w2 ++ (d :: ds' ++ rest))) =
      '$' :: (w2 ++ (d :: ds' ++ rest)) := by
    unfold sp
    rw [dropWhile_append_all hw1]
    rfl
  have hsp2 : sp (w2 ++ (d :: ds' ++ rest)) = (d :: ds') ++ rest := by
    unfold sp
    rw [dropWhile_append_all hw2]
    simp [List.dropWhile_cons, hdsp]
  have htake : ((d :: ds') ++ rest).takeWhile isHexDigitChar = d :: ds' :=
    takeWhile_append_stop hds hrest
  have hdrop : ((d :: ds') ++ rest).dropWhile isHexDigitChar = rest :=
    dropWhile_append_stop hds hrest
  unfold hexNumber
  rw [hsp1]
  simp only [ptag_cons_self, hsp2, htake, hdrop, List.isEmpty_cons]
  rfl

/-- Claim C4: a hexadecimal literal's width is `OneByte` iff its digit
run has exactly 2 characters and `TwoBytes` iff exactly 4, independent of
the numeric value (every successfully parsed hex literal carries
`hex_width_for_length` of its run's length, e.g. `"$0F"` yields
`OneByte`), and decimal literals always carry width `None`. -/
theorem c4_width_from_digit_count :
    (∀ l : Nat,
      (hexWidthForLength l = NumberWidth.oneByte ↔ l = 2) ∧
      (hexWidthForLength l = NumberWidth.twoBytes ↔ l = 4)) ∧
    (∀ w1 w2 ds rest : List Char,
      (∀ c ∈ w1, isSp c = true) → (∀ c ∈ w2, isSp c = true) →
      ds ≠ [] → (∀ c ∈ ds, isHexDigitChar c = true) →
      (∀ c, rest.head? = some c → isHexDigitChar c = false) →
      hexVal ds < u32Bound →
      hexNumber (w1 ++ '$' :: (w2 ++ (ds ++ rest))) =
        some (sp rest,
          Expression.number ⟨hexVal ds, hexWidthForLength ds.length⟩)) ∧
    hexNumber ("$0F".toList) =
      some ([], Expression.number ⟨0x0F, NumberWidth.oneByte⟩) ∧
    (∀ (cs r : List Char) (e : Expression), number cs = some (r, e) →
      ∃ v, e = Expression.number ⟨v, NumberWidth.none⟩) := by
  refine ⟨?_, ?_, by rfl, ?_⟩
  · intro l
    exact ⟨hexWidthForLength_oneByte_iff l, hexWidthForLength_twoBytes_iff l⟩
  · intro w1 w2 ds rest hw1 hw2 hne hds hrest hlt
    rw [hexNumber_run hw1 hw2 hne hds hrest, if_pos hlt]
  · intro cs r e h
    simp only [number] at h
    split at h
    · exact Option.noConfusion h
    · split at h
      · injection h with h'
        rw [Prod.mk.injEq] at h'
        exact ⟨_, h'.2.symm⟩
      · exact Option.noConfusion h

/-- Claim C4 witness: the general hex-width statement applied to the
decomposition of `"$0F"`. -/
theorem c4_witness :
    hexNumber ([] ++ '$' :: ([] ++ (['0', 'F'] ++ []))) =
      some (sp [],
        Expression.number ⟨hexVal ['0', 'F'],
          hexWidthForLength (['0', 'F'] : List Char).length⟩) :=
  c4_width_from_digit_count.2.1 [] [] ['0', 'F'] []
    (fun c hc => absurd hc (List.not_mem_nil c))
    (fun c hc => absurd hc (List.not_mem_nil c))
    (by decide) (by decide) (fun c hc => Option.noConfusion hc) (by decide)

/-- Claim C5: the decimal and hexadecimal number parsers succeed on a
digit run exactly when its value fits in a `u32`, producing that exact
value (no wrapping, truncation or saturation), and fail on any digit run
denoting a value above `u32::MAX`. -/
theorem c5_overflow_is_rejected :
    (∀ w ds rest : List Char,
      (∀ c ∈ w, isSp c = true) → ds ≠ [] →
      (∀ c ∈ ds, c.isDigit = true) →
      (∀ c, rest.head? = some c → c.isDigit = false) →
      (decVal ds < u32Bound →
        number (w ++ (ds ++ rest)) =
          some (sp rest, Expression.number ⟨decVal ds, NumberWidth.none⟩)) ∧
      (u32Bound ≤ decVal ds → number (w ++ (ds ++ rest)) = none)) ∧
    (∀ w1 w2 ds rest : List Char,
      (∀ c ∈ w1, isSp c = true) → (∀ c ∈ w2, isSp c = true) →
      ds ≠ [] → (∀ c ∈ ds, isHexDigitChar c = true) →
      (∀ c, rest.head? = some c → isHexDigitChar c = false) →
      (hexVal ds < u32Bound →
        hexNumber (w1 ++ '$' :: (w2 ++ (ds ++ rest))) =
          some (sp rest,
            Expression.number ⟨hexVal ds, hexWidthForLength ds.length⟩)) ∧
      (u32Bound ≤ hexVal ds →
        hexNumber (w1 ++ '$' :: (w2 ++ (ds ++ rest))) = none)) := by
  constructor
  · intro w ds rest hw hne hds hrest
    rw [number_run hw hne hds hrest]
    constructor
    · intro hlt; rw [if_pos hlt]
    · intro hge; rw [if_neg (Nat.not_lt.mpr hge)]
  · intro w1 w2 ds rest hw1 hw2 hne hds hrest
    rw [hexNumber_run hw1 hw2 hne hds hrest]
    constructor
    · intro hlt; rw [if_pos hlt]
    · intro hge; rw [if_neg (Nat.not_lt.mpr hge)]

/-- Claim C5 witness: the digit string `2859421875392683928732568`
(beyond `u32::MAX`, taken from the repository's `reject_huge_numbers`
test) is rejected by `number`. -/
theorem c5_witness :
    number ([] ++ ("2859421875392683928732568".toList ++ [])) = none :=
  (c5_overflow_is_rejected.1 [] ("2859421875392683928732568".toList) []
    (fun c hc => absurd hc (List.not_mem_nil c))
    (by decide) (by decide) (fun c hc => Option.noConfusion hc)).2
    (by decide)

end Mvp
